import Mathlib

/-!
Verification of the influscraper core: browser resource pool, task scheduler,
retry-with-backoff executor, and composite health aggregator.

Each definition below is a shallow embedding of a function of the repository
(file and symbol named in its doc comment).  Timestamps are modelled as `Int`
(JavaScript `Date.now()` values), map iteration order as list order (JS `Map`
preserves insertion order), and asynchronous interleaving, where it matters,
as explicit atomic segments separated at the `await` points of the source.
-/

set_option autoImplicit false
set_option linter.unusedVariables false

namespace Influscraper

/-! ## Health aggregator (src/routes/health.ts) -/

/-- Three-valued subsystem status, from the string union
in src/routes/health.ts (HealthStatus). -/
inductive HStatus where
  | healthy
  | degraded
  | unhealthy
deriving Repr, DecidableEq, Fintype

/-- Embedding of determineOverallStatus (src/routes/health.ts lines 132-149):
builds the list of the four subsystem statuses, with an absent playwright
probe defaulting to healthy, then reduces: any unhealthy wins, else any
degraded, else healthy. -/
def determineOverallStatus (redis instagramQueueStatus browserPoolStatus : HStatus)
    (playwright : Option HStatus) : HStatus :=
  let statuses : List HStatus :=
    [redis, instagramQueueStatus, browserPoolStatus, playwright.getD .healthy]
  if HStatus.unhealthy ∈ statuses then .unhealthy
  else if HStatus.degraded ∈ statuses then .degraded
  else .healthy

/-! ## Browser pool data model (src/browser/browser-pool.ts) -/

/-- Embedding of the BrowserInstance record (src/browser/browser-pool.ts
lines 6-13).  The opaque playwright handles (browser, context) are abstracted
by the proxy configuration the browser was launched with
(createBrowserInstance sets launchOptions.proxy from its argument), which is
the only observable property of the handles the claims mention. -/
structure BrowserInstance where
  id : String
  proxy : Option String
  createdAt : Int
  lastUsed : Int
  isActive : Bool
deriving Repr, DecidableEq

/-- Embedding of the BrowserPool mutable state (src/browser/browser-pool.ts
lines 18-21): the Map from instance id to instance, as a list in insertion
order, plus the shutting-down flag. -/
structure BrowserPool where
  instances : List BrowserInstance
  isShuttingDown : Bool
deriving Repr, DecidableEq

/-- Embedding of BrowserPool.findAvailableInstance (lines 166-174): iterates
the map values in order and returns the first instance with isActive false.
The proxy argument is ignored by the source (the parameter is named `_proxy`
and the "proxy compatibility" check is a comment only). -/
def findAvailableInstance (pool : BrowserPool) (_proxy : Option String) :
    Option BrowserInstance :=
  pool.instances.find? (fun i => !i.isActive)

/-- The in-place mutation performed on a found idle instance at acquisition
(lines 41-42 and 191-192): set lastUsed to now and isActive to true. -/
def markBusy (pool : BrowserPool) (instanceId : String) (now : Int) : BrowserPool :=
  { pool with
    instances := pool.instances.map (fun i =>
      if i.id = instanceId then { i with lastUsed := now, isActive := true } else i) }

/-- Result of one getBrowserContext call, up to the point where the source
either returns, throws, or enters waitForAvailableInstance. -/
inductive AcquireResult where
  | reused (id : String)
  | created (id : String)
  | creationFailed
  | waitForRelease
  | shuttingDownError
deriving Repr, DecidableEq

/-- Embedding of BrowserPool.getBrowserContext (lines 33-78) executed as one
serialized (non-interleaved) operation: throw if shutting down; else reuse the
first idle instance (mark busy, update lastUsed); else if the map is smaller
than poolSize run createBrowserInstance (lines 104-161), which on launch
success inserts a fresh instance with isActive true and createdAt = lastUsed
= now, and on launch failure rethrows without touching the map; else fall
through to waitForAvailableInstance.  newId stands for the random id,
launchOk for the success of chromium.launch / newContext. -/
def getBrowserContextStep (pool : BrowserPool) (proxy : Option String) (now : Int)
    (newId : String) (launchOk : Bool) (poolSize : Nat) :
    AcquireResult × BrowserPool :=
  if pool.isShuttingDown then (.shuttingDownError, pool)
  else
    match findAvailableInstance pool proxy with
    | some inst => (.reused inst.id, markBusy pool inst.id now)
    | none =>
      if pool.instances.length < poolSize then
        if launchOk then
          (.created newId,
           { pool with instances :=
              pool.instances ++ [⟨newId, proxy, now, now, true⟩] })
        else (.creationFailed, pool)
      else (.waitForRelease, pool)

/-- Embedding of BrowserPool.releaseBrowserContext (lines 83-99): if the id is
present, set isActive false and lastUsed to now; an unknown id is a logged
no-op, which the map over the list realizes (no entry matches). -/
def releaseBrowserContext (pool : BrowserPool) (instanceId : String) (now : Int) :
    BrowserPool :=
  { pool with
    instances := pool.instances.map (fun i =>
      if i.id = instanceId then { i with isActive := false, lastUsed := now } else i) }

/-- The sweep condition of BrowserPool.cleanupIdleInstances (line 213):
an instance is collected when it is not active and its idle time
(now - lastUsed) strictly exceeds the configured idle timeout. -/
def shouldCleanup (i : BrowserInstance) (now idleTimeout : Int) : Bool :=
  !i.isActive && decide (idleTimeout < now - i.lastUsed)

/-- Embedding of BrowserPool.cleanupIdleInstances (lines 206-228): collects
every instance satisfying shouldCleanup and closes each via
closeBrowserInstance (lines 233-255), which deletes the entry from the map
even when closing the underlying browser fails. -/
def cleanupIdleInstances (pool : BrowserPool) (now idleTimeout : Int) : BrowserPool :=
  { pool with
    instances := pool.instances.filter (fun i => !(shouldCleanup i now idleTimeout)) }

/-- Embedding of BrowserPool.shutdown (lines 277-290): sets the shutting-down
flag, then awaits closeBrowserInstance on every id (Promise.allSettled);
each close deletes its entry from the map even on error, so shutdown returns
with an empty map. -/
def poolShutdown (_pool : BrowserPool) : BrowserPool :=
  { instances := [], isShuttingDown := true }

/-- The pool-stats counters of BrowserPool.getStats (lines 260-272) the
claims refer to: active instance count. -/
def activeCount (pool : BrowserPool) : Nat :=
  (pool.instances.filter (fun i => i.isActive)).length

/-- Idle instance count, as in BrowserPool.getStats. -/
def idleCount (pool : BrowserPool) : Nat :=
  (pool.instances.filter (fun i => !i.isActive)).length

/-! ## Interleaved acquisition (the await boundaries of getBrowserContext)

getBrowserContext runs synchronously from its entry through
findAvailableInstance, the pool-size check, and (inside
createBrowserInstance) the id generation, up to the first suspension point
(await chromium.launch, line 125); the insertion into the map (line 142)
happens only after the awaits resolve.  Under concurrent calls, the segments
of different callers interleave at these await points.  The two atomic
segments are embedded separately. -/

/-- Where one in-flight getBrowserContext call stands. -/
inductive AcqPhase where
  | launching (newId : String)
  | got (id : String)
  | waitingLoop
  | failedShutdown
deriving Repr, DecidableEq

/-- First atomic segment of getBrowserContext (lines 33-57 up to the first
await inside createBrowserInstance): check the shutting-down flag, reuse an
idle instance if any, else decide between creating (suspending at
chromium.launch, with the fresh id already generated and no map change yet)
and entering the wait loop. -/
def acquireCheckPhase (pool : BrowserPool) (proxy : Option String) (now : Int)
    (newId : String) (poolSize : Nat) : AcqPhase × BrowserPool :=
  if pool.isShuttingDown then (.failedShutdown, pool)
  else
    match findAvailableInstance pool proxy with
    | some inst => (.got inst.id, markBusy pool inst.id now)
    | none =>
      if pool.instances.length < poolSize then (.launching newId, pool)
      else (.waitingLoop, pool)

/-- Second atomic segment of createBrowserInstance (lines 126-151, after the
awaits resolve successfully): insert the new instance into the map with
isActive true and return it. -/
def acquireLaunchDonePhase (pool : BrowserPool) (newId : String)
    (proxy : Option String) (now : Int) : AcqPhase × BrowserPool :=
  (.got newId,
   { pool with instances := pool.instances ++ [⟨newId, proxy, now, now, true⟩] })

/-! ## withBrowserContext (src/browser/browser-pool.ts lines 299-307) -/

/-- The instance id an AcquireResult hands to the caller, if any. -/
def acquiredId : AcquireResult → Option String
  | .reused id => some id
  | .created id => some id
  | _ => none

/-- Embedding of withBrowserContext (lines 299-307) as one serialized
execution: acquire a context; if acquisition yields an instance, run the
task (whose outcome, success or failure, is the parameter taskOutcome) and
in the finally block release the instance at time nowRel, propagating the
task's outcome unchanged; if acquisition itself fails, that failure
propagates and no release happens. -/
def withBrowserContextStep {T : Type} (pool : BrowserPool) (proxy : Option String)
    (nowAcq : Int) (newId : String) (launchOk : Bool) (poolSize : Nat)
    (taskOutcome : Except String T) (nowRel : Int) :
    AcquireResult × Option (Except String T) × BrowserPool :=
  let step := getBrowserContextStep pool proxy nowAcq newId launchOk poolSize
  match acquiredId step.1 with
  | some id => (step.1, some taskOutcome, releaseBrowserContext step.2 id nowRel)
  | none => (step.1, none, step.2)

/-! ## Task scheduler (src/queue/instagram-queue.ts over p-queue)

InstagramQueue delegates admission to a p-queue instance
(concurrency, interval = 60000, intervalCap = rateLimitPerMinute) and
settles each caller's promise when the wrapped task completes or throws.
The scheduler lifecycle is embedded as a state machine whose atomic
operations mirror: InstagramQueue.add (lines 76-114, which enqueues
unconditionally — the class has no shutting-down flag), p-queue starting a
queued task when below the concurrency limit, the completed / error events
(lines 38-59) which settle the caller, and PQueue.clear (called by
InstagramQueue.shutdown, line 138), which empties the internal queue
without settling the dropped tasks' promises.  Tasks are numbered by a
counter so every add call is a distinct caller. -/

/-- Scheduler state: queued and active task ids, plus the settled outcomes
(completed = promise resolved, errored = promise rejected). -/
structure SchedState where
  nextId : Nat
  queued : List Nat
  active : List Nat
  completed : List Nat
  errored : List Nat
deriving Repr, DecidableEq

/-- The scheduler state at process start. -/
def schedInit : SchedState :=
  { nextId := 0, queued := [], active := [], completed := [], errored := [] }

/-- One atomic scheduler operation. -/
inductive SchedOp where
  | add
  | start
  | completeOk (t : Nat)
  | completeErr (t : Nat)
  | clear
deriving Repr, DecidableEq

/-- One step of the scheduler, with concurrency limit conc:
add enqueues a fresh task unconditionally (InstagramQueue.add performs no
shutdown check); start admits the head of the queue when fewer than conc
tasks are active (p-queue admission; the interval cap only further restricts
when start may fire, which is immaterial to the shutdown claims); completeOk
and completeErr settle an active task (the completed / error events);
clear drops every queued task without settling it (PQueue.clear). -/
def schedStep (conc : Nat) (s : SchedState) : SchedOp → SchedState
  | .add => { s with queued := s.queued ++ [s.nextId], nextId := s.nextId + 1 }
  | .start =>
    match s.queued with
    | [] => s
    | t :: ts =>
      if s.active.length < conc then { s with queued := ts, active := s.active ++ [t] }
      else s
  | .completeOk t =>
    if t ∈ s.active then
      { s with active := s.active.erase t, completed := s.completed ++ [t] }
    else s
  | .completeErr t =>
    if t ∈ s.active then
      { s with active := s.active.erase t, errored := s.errored ++ [t] }
    else s
  | .clear => { s with queued := [] }

/-- Run a list of scheduler operations in order. -/
def schedRun (conc : Nat) (s : SchedState) : List SchedOp → SchedState
  | [] => s
  | op :: ops => schedRun conc (schedStep conc s op) ops

/-- The return condition of queue.onIdle(), awaited by
InstagramQueue.shutdown (line 139): no pending (active) and no queued task. -/
def schedOnIdle (s : SchedState) : Prop :=
  s.active = [] ∧ s.queued = []

instance (s : SchedState) : Decidable (schedOnIdle s) := by
  unfold schedOnIdle
  infer_instance

/-! ## p-queue interval rate limiting (InstagramQueue constructor, lines 19-24)

The constructor passes interval = 60000 ms and intervalCap =
rateLimitPerMinute to p-queue.  p-queue's documented semantics for these
options is a fixed-interval counter: it admits at most intervalCap task
starts per interval and resets the count when the interval elapses
("the length of time in milliseconds before the interval count resets").
That counter is embedded here; admission attempts are presented with their
timestamps in nondecreasing order. -/

/-- The p-queue interval counter: start of the current interval and number
of admissions charged to it. -/
structure PQIntervalState where
  intervalStart : Nat
  intervalCount : Nat
deriving Repr, DecidableEq

/-- Roll the interval forward when the current time t has passed the end of
the current interval: the interval start advances by whole multiples of the
window and the count resets to zero. -/
def pqAdvance (window : Nat) (s : PQIntervalState) (t : Nat) : PQIntervalState :=
  if s.intervalStart + window ≤ t then
    { intervalStart := s.intervalStart + window * ((t - s.intervalStart) / window),
      intervalCount := 0 }
  else s

/-- One admission attempt at time t: after rolling the interval forward,
admit exactly when the current interval count is below the cap. -/
def pqTryAdmit (window cap : Nat) (s : PQIntervalState) (t : Nat) :
    Bool × PQIntervalState :=
  let s1 := pqAdvance window s t
  if s1.intervalCount < cap then
    (true, { s1 with intervalCount := s1.intervalCount + 1 })
  else (false, s1)

/-- Run the admission counter over a nondecreasing list of attempt times,
returning the times at which an admission (queued to active transition)
happened. -/
def pqRun (window cap : Nat) (s : PQIntervalState) : List Nat → List Nat
  | [] => []
  | t :: ts =>
    let a := pqTryAdmit window cap s t
    if a.1 then t :: pqRun window cap a.2 ts else pqRun window cap a.2 ts

/-- Nondecreasing timestamps, as produced by a real clock. -/
def nondecreasing : List Nat → Bool
  | [] => true
  | [_] => true
  | t :: t' :: ts => decide (t ≤ t') && nondecreasing (t' :: ts)

/-- How many of the admission times fall in the trailing (sliding) window
[t0, t0 + width). -/
def slidingWindowCount (times : List Nat) (t0 width : Nat) : Nat :=
  (times.filter (fun t => decide (t0 ≤ t) && decide (t < t0 + width))).length

/-- How many of the admission times fall in the k-th fixed interval bucket
[k * width, (k+1) * width), the unit the p-queue counter actually bounds. -/
def bucketCount (times : List Nat) (k width : Nat) : Nat :=
  (times.filter (fun t => decide (k * width ≤ t) && decide (t < (k + 1) * width))).length

/-! ## Retry with exponential backoff (src/parsers/telegram.ts withRetry,
lines 43-78)

The loop is embedded with the k-th invocation's outcome given by op k
(k counted from 1).  The result records the value or propagated error, the
number of invocations performed, and the list of waits (in milliseconds)
performed between attempts.  The propagated error is Option-valued because
the source throws the variable lastError declared without initializer: after
zero iterations (maxAttempts = 0) it throws undefined, embedded as none. -/

/-- Outcome of a withRetry run: result, number of invocations of the
operation, and the backoff waits performed, in order. -/
structure RetryOutcome (E A : Type) where
  result : Except (Option E) A
  calls : Nat
  delays : List Nat

/-- The loop body of withRetry, with fuel = maxAttempts - attempt + 1 (the
number of iterations left, so fuel = 0 means the for-loop has ended and the
trailing throw of lastError runs).  On success return the value; on failure
record lastError and, when attempts remain (attempt < maxAttempts, i.e.
fuel > 1), wait min(1000 * 2 ^ (attempt - 1), 10000) ms and continue. -/
def withRetryGo {E A : Type} (op : Nat → Except E A) (attempt : Nat) :
    Nat → Option E → RetryOutcome E A
  | 0, lastError => ⟨.error lastError, attempt - 1, []⟩
  | fuel + 1, _ =>
    match op attempt with
    | .ok v => ⟨.ok v, attempt, []⟩
    | .error e =>
      if fuel = 0 then ⟨.error (some e), attempt, []⟩
      else
        let rest := withRetryGo op (attempt + 1) fuel (some e)
        ⟨rest.result, rest.calls, min (1000 * 2 ^ (attempt - 1)) 10000 :: rest.delays⟩

/-- Embedding of withRetry (src/parsers/telegram.ts lines 43-78).  The
correlationId parameter is accepted, as in the source, but flows only into
log statements, never into the control flow or the propagated error. -/
def withRetry {E A : Type} (op : Nat → Except E A) (maxAttempts : Nat)
    (correlationId : String) : RetryOutcome E A :=
  withRetryGo op 1 maxAttempts none

/-- The concrete operation of the testable-properties scenario: fails on
attempts 1 and 2, succeeds with 42 on attempt 3. -/
def retryOp3 : Nat → Except String Nat :=
  fun k => if k ≤ 2 then .error ("fail" ++ toString k) else .ok 42

/-- A concrete operation that fails on every attempt. -/
def failOp : Nat → Except String Nat :=
  fun k => .error ("fail" ++ toString k)

/-! ## Scheduler helper lemmas -/

/-- A task that is not queued, not active, and not yet settled, and whose id
has already been consumed by the counter (so no later add can reuse it). -/
def Unsettled (t : Nat) (s : SchedState) : Prop :=
  t < s.nextId ∧ t ∉ s.queued ∧ t ∉ s.active ∧ t ∉ s.completed ∧ t ∉ s.errored

instance (t : Nat) (s : SchedState) : Decidable (Unsettled t s) := by
  unfold Unsettled
  infer_instance

theorem unsettled_step (conc t : Nat) (s : SchedState) (op : SchedOp)
    (h : Unsettled t s) : Unsettled t (schedStep conc s op) := by
  obtain ⟨h1, h2, h3, h4, h5⟩ := h
  cases op with
  | add =>
    refine ⟨Nat.lt_succ_of_lt h1, ?_, h3, h4, h5⟩
    simp only [schedStep, List.mem_append, List.mem_singleton]
    exact fun hc => hc.elim h2 (fun he => absurd he (Nat.ne_of_lt h1))
  | start =>
    cases hq : s.queued with
    | nil =>
      simp only [schedStep, hq]
      exact ⟨h1, hq ▸ h2, h3, h4, h5⟩
    | cons u ts =>
      rw [hq] at h2
      simp only [List.mem_cons, not_or] at h2
      simp only [schedStep, hq]
      split
      · refine ⟨h1, h2.2, ?_, h4, h5⟩
        simp only [List.mem_append, List.mem_singleton, not_or]
        exact ⟨h3, h2.1⟩
      · exact ⟨h1, by rw [hq]; simp only [List.mem_cons, not_or]; exact h2, h3, h4, h5⟩
  | completeOk u =>
    simp only [schedStep]
    split
    · next hu =>
      refine ⟨h1, h2, fun hc => h3 (List.mem_of_mem_erase hc), ?_, h5⟩
      simp only [List.mem_append, List.mem_singleton]
      exact fun hc => hc.elim h4 (fun he => h3 (he ▸ hu))
    · exact ⟨h1, h2, h3, h4, h5⟩
  | completeErr u =>
    simp only [schedStep]
    split
    · next hu =>
      refine ⟨h1, h2, fun hc => h3 (List.mem_of_mem_erase hc), h4, ?_⟩
      simp only [List.mem_append, List.mem_singleton]
      exact fun hc => hc.elim h5 (fun he => h3 (he ▸ hu))
    · exact ⟨h1, h2, h3, h4, h5⟩
  | clear =>
    exact ⟨h1, by simp [schedStep], h3, h4, h5⟩

theorem unsettled_run (conc t : Nat) (s : SchedState) (ops : List SchedOp)
    (h : Unsettled t s) : Unsettled t (schedRun conc s ops) := by
  induction ops generalizing s with
  | nil => exact h
  | cons op ops ih => exact ih _ (unsettled_step conc t s op h)

/-! ## p-queue interval counter lemmas -/

theorem pqRun_subset (window cap : Nat) (s : PQIntervalState) (ts : List Nat) :
    ∀ x ∈ pqRun window cap s ts, x ∈ ts := by
  induction ts generalizing s with
  | nil => intro x hx; simp [pqRun] at hx
  | cons t ts ih =>
    intro x hx
    simp only [pqRun] at hx
    split at hx
    · rcases List.mem_cons.mp hx with h | h
      · exact List.mem_cons.mpr (Or.inl h)
      · exact List.mem_cons.mpr (Or.inr (ih _ x h))
    · exact List.mem_cons.mpr (Or.inr (ih _ x hx))

theorem nondecreasing_tail (t : Nat) (ts : List Nat)
    (h : nondecreasing (t :: ts) = true) : nondecreasing ts = true := by
  cases ts with
  | nil => rfl
  | cons u ts =>
    simp only [nondecreasing, Bool.and_eq_true] at h
    exact h.2

theorem nondecreasing_head_le (t : Nat) (ts : List Nat)
    (h : nondecreasing (t :: ts) = true) : ∀ x ∈ ts, t ≤ x := by
  induction ts generalizing t with
  | nil => intro x hx; simp at hx
  | cons u ts ih =>
    intro x hx
    simp only [nondecreasing, Bool.and_eq_true, decide_eq_true_eq] at h
    rcases List.mem_cons.mp hx with rfl | hx
    · exact h.1
    · exact le_trans h.1 (ih u (by simpa [nondecreasing] using h.2) x hx)

theorem bucketCount_nil (k window : Nat) : bucketCount [] k window = 0 := rfl

theorem bucketCount_cons (t : Nat) (rest : List Nat) (k window : Nat) :
    bucketCount (t :: rest) k window =
      bucketCount rest k window +
        (if (decide (k * window ≤ t) && decide (t < (k + 1) * window)) = true
         then 1 else 0) := by
  simp only [bucketCount, List.filter_cons]
  split
  · simp
  · simp

theorem bucketCount_eq_zero_of_ge (rest : List Nat) (k window : Nat)
    (h : ∀ x ∈ rest, (k + 1) * window ≤ x) : bucketCount rest k window = 0 := by
  simp only [bucketCount, List.length_eq_zero, List.filter_eq_nil_iff]
  intro x hx
  simp only [Bool.and_eq_true, decide_eq_true_eq, not_and, not_lt]
  intro _
  exact h x hx

/-- In a window of width `window` starting at a multiple of `window`, the only
bucket a time can fall into is the one starting there. -/
theorem bucket_mem_iff (window : Nat) (hw : 0 < window) (start t k : Nat)
    (hst : start ≤ t) (hlt : t < start + window) (hdvd : window ∣ start) :
    ((decide (k * window ≤ t) && decide (t < (k + 1) * window)) = true) ↔
      k * window = start := by
  obtain ⟨m, hm⟩ := hdvd
  have hmt : m * window ≤ t := by rw [Nat.mul_comm]; omega
  have hmt2 : t < (m + 1) * window := by
    have : (m + 1) * window = m * window + window := by ring
    rw [this, Nat.mul_comm]; omega
  have hdm : t / window = m := Nat.div_eq_of_lt_le hmt (by simpa [Nat.succ_eq_add_one] using hmt2)
  constructor
  · intro h
    simp only [Bool.and_eq_true, decide_eq_true_eq] at h
    have hdk : t / window = k :=
      Nat.div_eq_of_lt_le h.1 (by simpa [Nat.succ_eq_add_one] using h.2)
    have hkm : k = m := hdk.symm.trans hdm
    rw [hm, hkm, Nat.mul_comm]
  · intro h
    simp only [Bool.and_eq_true, decide_eq_true_eq]
    constructor
    · omega
    · have : (k + 1) * window = k * window + window := by ring
      omega

/-- Facts about one interval roll-forward: the new interval start is a
multiple of the window, still bounds t within one window, and either nothing
changed or the count was reset and the start moved ahead by at least one
whole window. -/
theorem pqAdvance_facts (window : Nat) (hw : 0 < window) (s : PQIntervalState)
    (t : Nat) (hst : s.intervalStart ≤ t) (hdvd : window ∣ s.intervalStart) :
    (pqAdvance window s t).intervalStart ≤ t ∧
    t < (pqAdvance window s t).intervalStart + window ∧
    window ∣ (pqAdvance window s t).intervalStart ∧
    (pqAdvance window s t = s ∨
      ((pqAdvance window s t).intervalCount = 0 ∧
        s.intervalStart + window ≤ (pqAdvance window s t).intervalStart)) := by
  by_cases hadv : s.intervalStart + window ≤ t
  · have hs1 : pqAdvance window s t =
        ⟨s.intervalStart + window * ((t - s.intervalStart) / window), 0⟩ := by
      rw [pqAdvance, if_pos hadv]
    obtain ⟨m, hm⟩ := hdvd
    have hd1 : window * ((t - s.intervalStart) / window) ≤ t - s.intervalStart := by
      rw [Nat.mul_comm]
      exact Nat.div_mul_le_self _ _
    have hd2 : window * ((t - s.intervalStart) / window) + (t - s.intervalStart) % window
        = t - s.intervalStart := Nat.div_add_mod _ _
    have hd3 : (t - s.intervalStart) % window < window := Nat.mod_lt _ hw
    have hd4 : 1 ≤ (t - s.intervalStart) / window := by
      rw [Nat.one_le_div_iff hw]
      omega
    have hd5 : window * 1 ≤ window * ((t - s.intervalStart) / window) :=
      Nat.mul_le_mul_left window hd4
    refine ⟨by rw [hs1]; dsimp only; omega, by rw [hs1]; dsimp only; omega, ?_, ?_⟩
    · rw [hs1]
      exact ⟨m + (t - s.intervalStart) / window, by dsimp only; rw [hm]; ring⟩
    · right
      rw [hs1]
      exact ⟨rfl, by dsimp only; omega⟩
  · have hs1 : pqAdvance window s t = s := by rw [pqAdvance, if_neg hadv]
    rw [hs1]
    exact ⟨hst, by omega, hdvd, Or.inl rfl⟩

theorem pqRun_cons_pos (window cap : Nat) (s : PQIntervalState) (t : Nat)
    (ts : List Nat) (h : (pqAdvance window s t).intervalCount < cap) :
    pqRun window cap s (t :: ts) =
      t :: pqRun window cap ⟨(pqAdvance window s t).intervalStart,
        (pqAdvance window s t).intervalCount + 1⟩ ts := by
  simp [pqRun, pqTryAdmit, if_pos h]

theorem pqRun_cons_neg (window cap : Nat) (s : PQIntervalState) (t : Nat)
    (ts : List Nat) (h : ¬ (pqAdvance window s t).intervalCount < cap) :
    pqRun window cap s (t :: ts) = pqRun window cap (pqAdvance window s t) ts := by
  simp [pqRun, pqTryAdmit, if_neg h]

/-- The central invariant of the p-queue interval counter: the number of
admissions landing in the fixed bucket starting at k * window, plus the
admissions already charged to that bucket when it is the current interval,
never exceeds the cap. -/
theorem pqRun_bucket_bound_aux (window cap : Nat) (hw : 0 < window)
    (ts : List Nat) : ∀ (s : PQIntervalState) (k : Nat),
    nondecreasing ts = true →
    (∀ t ∈ ts, s.intervalStart ≤ t) →
    window ∣ s.intervalStart →
    s.intervalCount ≤ cap →
    bucketCount (pqRun window cap s ts) k window +
      (if k * window = s.intervalStart then s.intervalCount else 0) ≤ cap := by
  induction ts with
  | nil =>
    intro s k _ _ _ hcnt
    rw [pqRun, bucketCount_nil]
    split
    · omega
    · omega
  | cons t ts ih =>
    intro s k hsort hge hdvd hcnt
    have hst : s.intervalStart ≤ t := hge t (List.mem_cons_self t ts)
    have htail : ∀ x ∈ ts, t ≤ x := nondecreasing_head_le t ts hsort
    have hsort' : nondecreasing ts = true := nondecreasing_tail t ts hsort
    obtain ⟨hA, hB, hdvd1, hcase⟩ := pqAdvance_facts window hw s t hst hdvd
    have hcnt1 : (pqAdvance window s t).intervalCount ≤ cap := by
      rcases hcase with he | ⟨he, _⟩
      · rw [he]; exact hcnt
      · omega
    have hge1 : ∀ x ∈ ts, (pqAdvance window s t).intervalStart ≤ x :=
      fun x hx => le_trans hA (htail x hx)
    have hbt := bucket_mem_iff window hw (pqAdvance window s t).intervalStart t k hA hB hdvd1
    by_cases hadm : (pqAdvance window s t).intervalCount < cap
    · -- admitted: output is t followed by the rest of the run
      rw [pqRun_cons_pos window cap s t ts hadm]
      have iha := ih ⟨(pqAdvance window s t).intervalStart,
          (pqAdvance window s t).intervalCount + 1⟩ k hsort' hge1 hdvd1 hadm
      dsimp only at iha
      rw [bucketCount_cons]
      by_cases hk : k * window = (pqAdvance window s t).intervalStart
      · -- t lands in bucket k, which is the current interval's bucket
        rw [if_pos (hbt.mpr hk)]
        rw [if_pos hk] at iha
        rcases hcase with he | ⟨he, hmove⟩
        · have he1 : (pqAdvance window s t).intervalStart = s.intervalStart := by rw [he]
          have he2 : (pqAdvance window s t).intervalCount = s.intervalCount := by rw [he]
          rw [if_pos (he1 ▸ hk)]
          omega
        · rw [if_neg (by omega : ¬ k * window = s.intervalStart)]
          omega
      · -- t lands outside bucket k
        rw [if_neg (by rw [hbt]; exact hk)]
        rw [if_neg hk] at iha
        by_cases hko : k * window = s.intervalStart
        · -- bucket k is an interval left behind: nothing later lands in it
          rcases hcase with he | ⟨he, hmove⟩
          · have he1 : (pqAdvance window s t).intervalStart = s.intervalStart := by rw [he]
            exact absurd (he1 ▸ hko) hk
          · have hzero : bucketCount (pqRun window cap
                ⟨(pqAdvance window s t).intervalStart,
                 (pqAdvance window s t).intervalCount + 1⟩ ts) k window = 0 := by
              apply bucketCount_eq_zero_of_ge
              intro x hx
              have hx1 : x ∈ ts := pqRun_subset _ _ _ _ x hx
              have hx2 : t ≤ x := htail x hx1
              have : (k + 1) * window = k * window + window := by ring
              omega
            rw [hzero, if_pos hko]
            omega
        · rw [if_neg hko]
          omega
    · -- rejected: output is just the rest of the run
      rw [pqRun_cons_neg window cap s t ts hadm]
      have iha := ih (pqAdvance window s t) k hsort' hge1 hdvd1 hcnt1
      rcases hcase with he | ⟨he, hmove⟩
      · rw [he] at iha ⊢
        exact iha
      · -- the interval advanced yet the fresh count 0 was rejected: cap = 0
        have hcap : cap = 0 := by omega
        subst hcap
        have hs0 : s.intervalCount = 0 := Nat.le_zero.mp hcnt
        rw [hs0]
        split at iha <;> split <;> omega

/-! ## withRetry helper lemmas -/

/-- The backoff schedule the source computes: the i-th wait (0-based, after
the (attempt + i)-th failed invocation) is min(1000 * 2 ^ (attempt - 1 + i),
10000) milliseconds. -/
def backoffDelays (attempt count : Nat) : List Nat :=
  (List.range count).map (fun i => min (1000 * 2 ^ (attempt - 1 + i)) 10000)

theorem backoffDelays_succ (attempt n : Nat) (h : 1 ≤ attempt) :
    backoffDelays attempt (n + 1) =
      min (1000 * 2 ^ (attempt - 1)) 10000 :: backoffDelays (attempt + 1) n := by
  simp only [backoffDelays, List.range_succ_eq_map, List.map_cons, List.map_map]
  refine congrArg₂ _ (by simp) ?_
  apply List.map_congr_left
  intro i _
  simp only [Function.comp_apply, Nat.succ_eq_add_one]
  have : attempt - 1 + (i + 1) = attempt + 1 - 1 + i := by omega
  rw [this]

theorem withRetryGo_calls_bounds {E A : Type} (op : Nat → Except E A) :
    ∀ (fuel attempt : Nat) (lastE : Option E), 1 ≤ fuel →
    attempt ≤ (withRetryGo op attempt fuel lastE).calls ∧
    (withRetryGo op attempt fuel lastE).calls ≤ attempt + fuel - 1 := by
  intro fuel
  induction fuel with
  | zero => intro _ _ h; omega
  | succ fuel ih =>
    intro attempt lastE _
    rw [withRetryGo]
    cases hop : op attempt with
    | ok v => dsimp only; exact ⟨le_refl _, by omega⟩
    | error e =>
      dsimp only
      by_cases hf : fuel = 0
      · rw [if_pos hf]
        dsimp only
        exact ⟨le_refl _, by omega⟩
      · rw [if_neg hf]
        have := ih (attempt + 1) (some e) (by omega)
        dsimp only
        omega

theorem withRetryGo_delays {E A : Type} (op : Nat → Except E A) :
    ∀ (fuel attempt : Nat) (lastE : Option E), 1 ≤ attempt →
    (withRetryGo op attempt fuel lastE).delays =
      backoffDelays attempt ((withRetryGo op attempt fuel lastE).calls - attempt) := by
  intro fuel
  induction fuel with
  | zero =>
    intro attempt lastE ha
    rw [withRetryGo]
    simp [backoffDelays]
  | succ fuel ih =>
    intro attempt lastE ha
    rw [withRetryGo]
    cases hop : op attempt with
    | ok v => simp [backoffDelays]
    | error e =>
      dsimp only
      by_cases hf : fuel = 0
      · rw [if_pos hf]
        simp [backoffDelays]
      · rw [if_neg hf]
        dsimp only
        have hcb := withRetryGo_calls_bounds op fuel (attempt + 1) (some e) (by omega)
        have hdel := ih (attempt + 1) (some e) (by omega)
        rw [hdel]
        have hc : (withRetryGo op (attempt + 1) fuel (some e)).calls - attempt =
            ((withRetryGo op (attempt + 1) fuel (some e)).calls - (attempt + 1)) + 1 := by
          omega
        rw [hc, backoffDelays_succ attempt _ ha]

theorem withRetryGo_first_success {E A : Type} (op : Nat → Except E A) :
    ∀ (fuel attempt k : Nat) (v : A) (lastE : Option E),
    attempt ≤ k → k < attempt + fuel →
    op k = .ok v →
    (∀ j, attempt ≤ j → j < k → ∃ e, op j = .error e) →
    (withRetryGo op attempt fuel lastE).result = .ok v ∧
    (withRetryGo op attempt fuel lastE).calls = k := by
  intro fuel
  induction fuel with
  | zero => intro attempt k v lastE h1 h2 _ _; omega
  | succ fuel ih =>
    intro attempt k v lastE h1 h2 hok herr
    rcases Nat.eq_or_lt_of_le h1 with rfl | hlt
    · rw [withRetryGo, hok]
      exact ⟨rfl, rfl⟩
    · obtain ⟨e, he⟩ := herr attempt (le_refl _) hlt
      rw [withRetryGo, he]
      dsimp only
      have hf : ¬ fuel = 0 := by omega
      rw [if_neg hf]
      have := ih (attempt + 1) k v (some e) hlt (by omega) hok
        (fun j hj1 hj2 => herr j (by omega) hj2)
      exact this

theorem withRetryGo_all_fail {E A : Type} (op : Nat → Except E A) :
    ∀ (fuel attempt : Nat) (lastE : Option E) (e : E), 1 ≤ fuel →
    (∀ j, attempt ≤ j → j < attempt + fuel → ∃ e', op j = .error e') →
    op (attempt + fuel - 1) = .error e →
    (withRetryGo op attempt fuel lastE).result = .error (some e) ∧
    (withRetryGo op attempt fuel lastE).calls = attempt + fuel - 1 := by
  intro fuel
  induction fuel with
  | zero => intro _ _ _ h; omega
  | succ fuel ih =>
    intro attempt lastE e _ herr hlast
    by_cases hf : fuel = 0
    · subst hf
      have heq : attempt + 1 - 1 = attempt := by omega
      rw [heq] at hlast
      rw [withRetryGo, hlast]
      dsimp only
      rw [if_pos rfl]
      exact ⟨rfl, by dsimp only; omega⟩
    · obtain ⟨e0, he0⟩ := herr attempt (le_refl _) (by omega)
      rw [withRetryGo, he0]
      dsimp only
      rw [if_neg hf]
      have hlast' : op (attempt + 1 + fuel - 1) = .error e := by
        have : attempt + 1 + fuel - 1 = attempt + (fuel + 1) - 1 := by omega
        rw [this]
        exact hlast
      have := ih (attempt + 1) (some e0) e (by omega)
        (fun j hj1 hj2 => herr j (by omega) (by omega)) hlast'
      dsimp only
      refine ⟨this.1, by omega⟩

/-! ## Pool helper lemmas -/

theorem release_sets_inactive (pool : BrowserPool) (instanceId : String) (now : Int) :
    ∀ i ∈ (releaseBrowserContext pool instanceId now).instances,
      i.id = instanceId → i.isActive = false ∧ i.lastUsed = now := by
  intro i hi hid
  simp only [releaseBrowserContext, List.mem_map] at hi
  obtain ⟨j, hj, hji⟩ := hi
  by_cases hjid : j.id = instanceId
  · rw [if_pos hjid] at hji
    rw [← hji]
    exact ⟨rfl, rfl⟩
  · rw [if_neg hjid] at hji
    rw [← hji] at hid
    exact absurd hid hjid

theorem release_keeps_id (pool : BrowserPool) (instanceId : String) (now : Int)
    (h : ∃ j ∈ pool.instances, j.id = instanceId) :
    ∃ i ∈ (releaseBrowserContext pool instanceId now).instances, i.id = instanceId := by
  obtain ⟨j, hj, hjid⟩ := h
  simp only [releaseBrowserContext, List.mem_map]
  refine ⟨(fun i => if i.id = instanceId then
      { i with isActive := false, lastUsed := now } else i) j, ⟨j, hj, rfl⟩, ?_⟩
  simp [hjid]

theorem markBusy_sets_active (pool : BrowserPool) (instanceId : String) (now : Int) :
    ∀ i ∈ (markBusy pool instanceId now).instances,
      i.id = instanceId → i.isActive = true ∧ i.lastUsed = now := by
  intro i hi hid
  simp only [markBusy, List.mem_map] at hi
  obtain ⟨j, hj, hji⟩ := hi
  by_cases hjid : j.id = instanceId
  · rw [if_pos hjid] at hji
    rw [← hji]
    exact ⟨rfl, rfl⟩
  · rw [if_neg hjid] at hji
    rw [← hji] at hid
    exact absurd hid hjid

theorem markBusy_keeps_id (pool : BrowserPool) (instanceId : String) (now : Int)
    (h : ∃ j ∈ pool.instances, j.id = instanceId) :
    ∃ i ∈ (markBusy pool instanceId now).instances, i.id = instanceId := by
  obtain ⟨j, hj, hjid⟩ := h
  simp only [markBusy, List.mem_map]
  refine ⟨(fun i => if i.id = instanceId then
      { i with lastUsed := now, isActive := true } else i) j, ⟨j, hj, rfl⟩, ?_⟩
  simp [hjid]

/-- When getBrowserContext hands out an instance id, an instance carrying
that id is present in the resulting pool. -/
theorem acquire_id_mem (pool : BrowserPool) (proxy : Option String) (now : Int)
    (newId : String) (launchOk : Bool) (poolSize : Nat) (id : String)
    (h : acquiredId (getBrowserContextStep pool proxy now newId launchOk poolSize).1
      = some id) :
    ∃ j ∈ (getBrowserContextStep pool proxy now newId launchOk poolSize).2.instances,
      j.id = id := by
  by_cases hsd : pool.isShuttingDown = true
  · simp [getBrowserContextStep, hsd, acquiredId] at h
  · cases hfind : findAvailableInstance pool proxy with
    | some inst =>
      simp only [getBrowserContextStep, if_neg hsd, hfind, acquiredId,
        Option.some.injEq] at h ⊢
      rw [← h]
      exact markBusy_keeps_id pool inst.id now
        ⟨inst, List.mem_of_find?_eq_some hfind, rfl⟩
    | none =>
      by_cases hlen : pool.instances.length < poolSize
      · cases launchOk with
        | true =>
          simp only [getBrowserContextStep, if_neg hsd, hfind, if_pos hlen,
            if_true] at h ⊢
          simp only [acquiredId, Option.some.injEq] at h
          refine ⟨⟨newId, proxy, now, now, true⟩, by simp, ?_⟩
          exact h
        | false =>
          simp [getBrowserContextStep, hsd, hfind, hlen, acquiredId] at h
      · simp [getBrowserContextStep, hsd, hfind, hlen, acquiredId] at h

/-! ## Claim theorems -/

/-- C1: the claim states that at most poolSize Sessions ever exist, even
under concurrent acquisitions.  The code violates this: with poolSize = 1
and two concurrent getBrowserContext calls, both synchronous check segments
run (each sees 0 < 1 instances) before either createBrowserInstance resumes
from its awaits and inserts into the map, so both calls create an instance
and the pool ends with 2 > 1 instances.  This theorem evaluates the embedded
await-segmented code on that failing interleaving; the busy/idle counts
still partition the pool. -/
theorem C1_pool_capacity_race :
    (acquireCheckPhase ⟨[], false⟩ none 0 "a" 1).1 = .launching "a" ∧
    (acquireCheckPhase (acquireCheckPhase ⟨[], false⟩ none 0 "a" 1).2
      none 0 "b" 1).1 = .launching "b" ∧
    (acquireLaunchDonePhase (acquireLaunchDonePhase
        (acquireCheckPhase (acquireCheckPhase ⟨[], false⟩ none 0 "a" 1).2
          none 0 "b" 1).2 "a" none 5).2 "b" none 6).1 = .got "b" ∧
    (acquireLaunchDonePhase (acquireLaunchDonePhase
        (acquireCheckPhase (acquireCheckPhase ⟨[], false⟩ none 0 "a" 1).2
          none 0 "b" 1).2 "a" none 5).2 "b" none 6).2.instances.length = 2 ∧
    activeCount (acquireLaunchDonePhase (acquireLaunchDonePhase
        (acquireCheckPhase (acquireCheckPhase ⟨[], false⟩ none 0 "a" 1).2
          none 0 "b" 1).2 "a" none 5).2 "b" none 6).2 +
      idleCount (acquireLaunchDonePhase (acquireLaunchDonePhase
        (acquireCheckPhase (acquireCheckPhase ⟨[], false⟩ none 0 "a" 1).2
          none 0 "b" 1).2 "a" none 5).2 "b" none 6).2 = 2 ∧
    1 < 2 := by
  decide

/-- C2 counterexample: the queue passes interval = 60000 and intervalCap to
p-queue, whose counter resets at fixed interval boundaries.  With cap 2,
two admissions at t = 59999 and two at t = 60000 are all admitted, and the
sliding window of width 60000 starting at t0 = 59999 observes 4 > 2
admissions, refuting the sliding-window reading of the claim. -/
theorem C2_sliding_window_cex :
    nondecreasing [59999, 59999, 60000, 60000] = true ∧
    pqRun 60000 2 ⟨0, 0⟩ [59999, 59999, 60000, 60000] =
      [59999, 59999, 60000, 60000] ∧
    slidingWindowCount (pqRun 60000 2 ⟨0, 0⟩ [59999, 59999, 60000, 60000])
      59999 60000 = 4 ∧
    2 < 4 := by
  decide

/-- C2 (amended): the rate limit the code enforces is a fixed-bucket one —
for every execution of the admission counter over nondecreasing attempt
times, no fixed interval bucket of width W observes more than cap
queued-to-active admissions (a sliding window of width W can observe up to
twice the cap, as the counterexample shows). -/
theorem C2_fixed_bucket_bound (window cap k : Nat) (ts : List Nat)
    (hw : 0 < window) (hsort : nondecreasing ts = true) :
    bucketCount (pqRun window cap ⟨0, 0⟩ ts) k window ≤ cap := by
  have h := pqRun_bucket_bound_aux window cap hw ts ⟨0, 0⟩ k hsort
    (fun t _ => Nat.zero_le t) (dvd_zero window) (Nat.zero_le cap)
  split at h <;> omega

/-- Witness for C2_fixed_bucket_bound at the counterexample trace. -/
theorem C2_fixed_bucket_bound_witness :
    bucketCount (pqRun 60000 2 ⟨0, 0⟩ [59999, 59999, 60000, 60000]) 1 60000 ≤ 2 :=
  C2_fixed_bucket_bound 60000 2 1 [59999, 59999, 60000, 60000]
    (by decide) (by decide)

/-- C3 counterexample: InstagramQueue has no shutting-down flag, so a task
submitted after shutdown (clear plus drain to idle) is accepted, runs, and
completes normally instead of failing with a shutting-down error. -/
theorem C3_scheduler_accepts_after_shutdown_cex :
    schedOnIdle (schedRun 1 schedInit
      [.add, .add, .start, .clear, .completeOk 0]) ∧
    (schedRun 1 schedInit
      [.add, .add, .start, .clear, .completeOk 0,
       .add, .start, .completeOk 2]).completed = [0, 2] ∧
    (schedRun 1 schedInit
      [.add, .add, .start, .clear, .completeOk 0,
       .add, .start, .completeOk 2]).errored = [] := by
  decide

/-- C3 (amended): after BrowserPool.shutdown every subsequent acquisition
fails immediately with the shutting-down error and the pool map is left
empty (all Sessions force-destroyed before shutdown returns); the scheduler
however rejects nothing — InstagramQueue.add enqueues unconditionally after
shutdown — and its shutdown only returns once onIdle holds, i.e. once no
task is active. -/
theorem C3_shutdown_semantics :
    ∀ (pool : BrowserPool) (proxy : Option String) (now : Int) (newId : String)
      (launchOk : Bool) (poolSize : Nat) (conc : Nat) (s : SchedState),
    (getBrowserContextStep (poolShutdown pool) proxy now newId launchOk
      poolSize).1 = .shuttingDownError ∧
    (getBrowserContextStep (poolShutdown pool) proxy now newId launchOk
      poolSize).2 = poolShutdown pool ∧
    (poolShutdown pool).instances = [] ∧
    (schedStep conc s .add).queued = s.queued ++ [s.nextId] ∧
    (∀ s', schedOnIdle s' → s'.active = []) := by
  intro pool proxy now newId launchOk poolSize conc s
  exact ⟨rfl, rfl, rfl, rfl, fun s' h => h.1⟩

/-- Witness for C3_shutdown_semantics at a concrete pool with one busy
instance and the initial scheduler state. -/
theorem C3_shutdown_witness :
    (getBrowserContextStep (poolShutdown ⟨[⟨"a", none, 0, 0, true⟩], false⟩)
      none 0 "n" true 3).1 = .shuttingDownError ∧
    (poolShutdown ⟨[⟨"a", none, 0, 0, true⟩], false⟩).instances = [] ∧
    (schedStep 2 schedInit .add).queued =
      schedInit.queued ++ [schedInit.nextId] :=
  ⟨(C3_shutdown_semantics ⟨[⟨"a", none, 0, 0, true⟩], false⟩ none 0 "n" true
      3 2 schedInit).1,
   (C3_shutdown_semantics ⟨[⟨"a", none, 0, 0, true⟩], false⟩ none 0 "n" true
      3 2 schedInit).2.2.1,
   (C3_shutdown_semantics ⟨[⟨"a", none, 0, 0, true⟩], false⟩ none 0 "n" true
      3 2 schedInit).2.2.2.1⟩

/-- C4 counterexample: a task still queued when shutdown clears the queue is
discarded, but its caller never receives any settlement at all — in
particular no SchedulerShutdownError: after the concrete shutdown run, task
1 is out of the queue and no continuation of the execution ever puts it in
completed or errored. -/
theorem C4_cleared_caller_never_settled_cex :
    (schedRun 1 schedInit [.add, .add, .start]).queued = [1] ∧
    schedOnIdle (schedRun 1 schedInit
      [.add, .add, .start, .clear, .completeOk 0]) ∧
    ∀ ops,
      1 ∉ (schedRun 1 (schedRun 1 schedInit
        [.add, .add, .start, .clear, .completeOk 0]) ops).completed ∧
      1 ∉ (schedRun 1 (schedRun 1 schedInit
        [.add, .add, .start, .clear, .completeOk 0]) ops).errored := by
  refine ⟨by decide, by decide, ?_⟩
  intro ops
  have h := unsettled_run 1 1
    (schedRun 1 schedInit [.add, .add, .start, .clear, .completeOk 0]) ops
    (by decide)
  exact ⟨h.2.2.2.1, h.2.2.2.2⟩

/-- C4 (amended): PQueue.clear (called by InstagramQueue.shutdown) removes
every queued task from the queue and leaves active and settled tasks
untouched, but the discarded tasks' callers are never settled — no
SchedulerShutdownError (nor anything else) is ever delivered to them, over
every possible continuation of the execution; shutdown then returns only
once onIdle holds, i.e. once no task is active. -/
theorem C4_clear_discards_without_settling (conc : Nat) (s : SchedState)
    (t : Nat) (hq : t ∈ s.queued) (ha : t ∉ s.active) (hc : t ∉ s.completed)
    (he : t ∉ s.errored) (hid : t < s.nextId) :
    t ∉ (schedStep conc s .clear).queued ∧
    (schedStep conc s .clear).active = s.active ∧
    (schedStep conc s .clear).completed = s.completed ∧
    (schedStep conc s .clear).errored = s.errored ∧
    (∀ ops, t ∉ (schedRun conc (schedStep conc s .clear) ops).completed ∧
            t ∉ (schedRun conc (schedStep conc s .clear) ops).errored) ∧
    (∀ s', schedOnIdle s' → s'.active = []) := by
  have hu : Unsettled t (schedStep conc s .clear) :=
    ⟨hid, by simp [schedStep], ha, hc, he⟩
  refine ⟨by simp [schedStep], rfl, rfl, rfl, ?_, fun s' h => h.1⟩
  intro ops
  have h := unsettled_run conc t _ ops hu
  exact ⟨h.2.2.2.1, h.2.2.2.2⟩

/-- Witness for C4_clear_discards_without_settling: the concrete state with
task 0 active and task 1 queued, at concurrency 1. -/
theorem C4_clear_discards_witness :
    1 ∉ (schedStep 1 (schedRun 1 schedInit [.add, .add, .start]) .clear).queued ∧
    ∀ ops,
      1 ∉ (schedRun 1 (schedStep 1 (schedRun 1 schedInit [.add, .add, .start])
        .clear) ops).completed ∧
      1 ∉ (schedRun 1 (schedStep 1 (schedRun 1 schedInit [.add, .add, .start])
        .clear) ops).errored :=
  ⟨(C4_clear_discards_without_settling 1
      (schedRun 1 schedInit [.add, .add, .start]) 1
      (by decide) (by decide) (by decide) (by decide) (by decide)).1,
   (C4_clear_discards_without_settling 1
      (schedRun 1 schedInit [.add, .add, .start]) 1
      (by decide) (by decide) (by decide) (by decide) (by decide)).2.2.2.2.1⟩

/-- C5: withRetry with maxAttempts n ≥ 1 invokes the operation between 1 and
n times, performs exactly calls - 1 waits whose i-th (0-based) duration is
min(1000 * 2 ^ i, 10000) ms — i.e. min(base * 2 ^ (k-1), cap) between
attempts k and k+1 with base one second and cap ten seconds, no jitter —
and returns the first successful result: if attempt k succeeds after k-1
failures, the result is that success and exactly k invocations happened. -/
theorem C5_withRetry_backoff_schedule {E A : Type} (op : Nat → Except E A)
    (n : Nat) (cid : String) (h : 1 ≤ n) :
    1 ≤ (withRetry op n cid).calls ∧
    (withRetry op n cid).calls ≤ n ∧
    (withRetry op n cid).delays =
      (List.range ((withRetry op n cid).calls - 1)).map
        (fun i => min (1000 * 2 ^ i) 10000) ∧
    (∀ k v, 1 ≤ k → k ≤ n → op k = .ok v →
      (∀ j, 1 ≤ j → j < k → ∃ e, op j = .error e) →
      (withRetry op n cid).result = .ok v ∧ (withRetry op n cid).calls = k) := by
  have hrw : withRetry op n cid = withRetryGo op 1 n none := rfl
  have hb := withRetryGo_calls_bounds op n 1 none h
  have hd := withRetryGo_delays op n 1 none (le_refl 1)
  refine ⟨by rw [hrw]; omega, by rw [hrw]; omega, ?_, ?_⟩
  · rw [hrw, hd]
    simp [backoffDelays]
  · intro k v hk1 hkn hok herr
    rw [hrw]
    exact withRetryGo_first_success op n 1 k v none hk1 (by omega) hok
      (fun j hj1 hj2 => herr j hj1 hj2)

/-- Witness for C5 at the testable-properties scenario: fails on attempts
1-2, succeeds on attempt 3, with n = 3: result ok 42 after exactly 3
invocations, and the two waits are 1000 and 2000 ms. -/
theorem C5_withRetry_backoff_witness :
    1 ≤ (withRetry retryOp3 3 "cid").calls ∧
    (withRetry retryOp3 3 "cid").calls ≤ 3 ∧
    ((withRetry retryOp3 3 "cid").result = .ok 42 ∧
      (withRetry retryOp3 3 "cid").calls = 3) ∧
    (withRetry retryOp3 3 "cid").delays = [1000, 2000] := by
  have h := C5_withRetry_backoff_schedule retryOp3 3 "cid" (by decide)
  refine ⟨h.1, h.2.1, h.2.2.2 3 42 (by decide) (by decide) rfl ?_, by decide⟩
  intro j h1 h2
  interval_cases j
  · exact ⟨_, rfl⟩
  · exact ⟨_, rfl⟩

/-- C6 counterexample: when every attempt fails, the error thrown to the
caller is the last attempt's error object unchanged — it carries no attempt
count and no correlation id (runs with different correlation ids produce
identical outcomes; the ids appear only in log statements). -/
theorem C6_unannotated_failure_cex :
    (withRetry failOp 3 "alpha").result = .error (some "fail3") ∧
    withRetry failOp 3 "alpha" = withRetry failOp 3 "beta" ∧
    (withRetry failOp 3 "alpha").calls = 3 := by
  exact ⟨rfl, rfl, rfl⟩

/-- C6 (amended): if all n ≥ 1 attempts fail, withRetry propagates exactly
the last attempt's failure, unannotated, after exactly n invocations; the
attempt count and correlation id are logged but not attached to the
propagated error, so the outcome is independent of the correlation id. -/
theorem C6_last_failure_propagated {E A : Type} (op : Nat → Except E A)
    (n : Nat) (cid cid' : String) (h : 1 ≤ n)
    (hfail : ∀ k, 1 ≤ k → k ≤ n → ∃ e, op k = .error e) :
    ∃ e, op n = .error e ∧
      (withRetry op n cid).result = .error (some e) ∧
      (withRetry op n cid).calls = n ∧
      withRetry op n cid = withRetry op n cid' := by
  obtain ⟨e, he⟩ := hfail n h (le_refl n)
  have hlast : op (1 + n - 1) = .error e := by
    have heq : 1 + n - 1 = n := by omega
    rw [heq]
    exact he
  have hall := withRetryGo_all_fail op n 1 none e h
    (fun j hj1 hj2 => hfail j hj1 (by omega)) hlast
  have hrw : withRetry op n cid = withRetryGo op 1 n none := rfl
  refine ⟨e, he, by rw [hrw]; exact hall.1, by rw [hrw]; omega, rfl⟩

/-- Witness for C6_last_failure_propagated at a concrete all-failing
operation with n = 3 and two different correlation ids. -/
theorem C6_last_failure_witness :
    ∃ e, failOp 3 = .error e ∧
      (withRetry failOp 3 "a").result = .error (some e) ∧
      (withRetry failOp 3 "a").calls = 3 ∧
      withRetry failOp 3 "a" = withRetry failOp 3 "b" :=
  C6_last_failure_propagated failOp 3 "a" "b" (by decide)
    (fun k h1 h2 => ⟨_, rfl⟩)

/-- C7: determineOverallStatus is the strictly ordered reduction: any
subsystem unhealthy makes the overall status unhealthy; otherwise any
subsystem degraded makes it degraded; otherwise it is healthy (an absent
playwright probe counts as healthy). -/
theorem C7_overall_status_strict_order :
    ∀ (redis q p : HStatus) (pw : Option HStatus),
      ((redis = .unhealthy ∨ q = .unhealthy ∨ p = .unhealthy ∨
          pw = some .unhealthy) →
        determineOverallStatus redis q p pw = .unhealthy) ∧
      (determineOverallStatus redis q p pw = .degraded ↔
        (¬(redis = .unhealthy ∨ q = .unhealthy ∨ p = .unhealthy ∨
            pw = some .unhealthy) ∧
         (redis = .degraded ∨ q = .degraded ∨ p = .degraded ∨
            pw = some .degraded))) ∧
      (determineOverallStatus redis q p pw = .healthy ↔
        (¬(redis = .unhealthy ∨ q = .unhealthy ∨ p = .unhealthy ∨
            pw = some .unhealthy) ∧
         ¬(redis = .degraded ∨ q = .degraded ∨ p = .degraded ∨
            pw = some .degraded))) := by
  intro redis q p pw
  rcases pw with _ | pws
  · cases redis <;> cases q <;> cases p <;> decide
  · cases redis <;> cases q <;> cases p <;> cases pws <;> decide

/-- Witness for C7 at the spec's example inputs: cache healthy, scheduler
degraded (pending over 10), pool healthy gives overall degraded; the same
with the pool unhealthy (shutting down) gives overall unhealthy. -/
theorem C7_overall_status_witness :
    determineOverallStatus .healthy .degraded .healthy none = .degraded ∧
    determineOverallStatus .healthy .degraded .unhealthy none = .unhealthy :=
  ⟨((C7_overall_status_strict_order .healthy .degraded .healthy none).2.1).mpr
      (by decide),
   (C7_overall_status_strict_order .healthy .degraded .unhealthy none).1
      (by decide)⟩

/-- C8 counterexample: findAvailableInstance ignores its proxy argument
(the compatibility check is only a comment), so an acquisition requesting
proxy p2 reuses the idle Session whose browser was launched with proxy p1. -/
theorem C8_affinity_ignored_cex :
    (getBrowserContextStep ⟨[⟨"a", some "p1", 0, 0, false⟩], false⟩
      (some "p2") 100 "new" true 3).1 = .reused "a" ∧
    (∀ i ∈ (getBrowserContextStep ⟨[⟨"a", some "p1", 0, 0, false⟩], false⟩
      (some "p2") 100 "new" true 3).2.instances, i.proxy = some "p1") ∧
    (some "p1" : Option String) ≠ some "p2" := by
  decide

/-- C8 (amended): when an acquisition reuses an idle Session, the Session
returned is simply the first idle one — the affinity key (proxy) plays no
role in the choice, as findAvailableInstance gives the same answer for every
proxy argument — and it is marked busy with its last-used timestamp set to
the acquisition time. -/
theorem C8_reuse_any_idle_marks_busy (pool : BrowserPool)
    (proxy : Option String) (now : Int) (newId : String) (launchOk : Bool)
    (poolSize : Nat) (id : String)
    (h : (getBrowserContextStep pool proxy now newId launchOk poolSize).1
      = .reused id) :
    (∃ j ∈ pool.instances, j.id = id ∧ j.isActive = false ∧
      findAvailableInstance pool proxy = some j) ∧
    (∀ proxy', findAvailableInstance pool proxy' =
      findAvailableInstance pool proxy) ∧
    (getBrowserContextStep pool proxy now newId launchOk poolSize).2 =
      markBusy pool id now ∧
    (∀ i ∈ (getBrowserContextStep pool proxy now newId launchOk
        poolSize).2.instances,
      i.id = id → i.isActive = true ∧ i.lastUsed = now) := by
  by_cases hsd : pool.isShuttingDown = true
  · simp [getBrowserContextStep, hsd] at h
  · cases hfind : findAvailableInstance pool proxy with
    | some inst =>
      simp only [getBrowserContextStep, if_neg hsd, hfind,
        AcquireResult.reused.injEq] at h
      subst h
      simp only [getBrowserContextStep, if_neg hsd, hfind]
      have hidle : inst.isActive = false := by
        have := List.find?_some hfind
        simpa using this
      refine ⟨⟨inst, List.mem_of_find?_eq_some hfind, rfl, hidle, rfl⟩,
        fun proxy' => hfind, trivial, ?_⟩
      exact markBusy_sets_active pool inst.id now
    | none =>
      by_cases hlen : pool.instances.length < poolSize
      · cases launchOk with
        | true =>
          simp [getBrowserContextStep, hsd, hfind, hlen] at h
        | false =>
          simp [getBrowserContextStep, hsd, hfind, hlen] at h
      · simp [getBrowserContextStep, hsd, hfind, hlen] at h

/-- Witness for C8_reuse_any_idle_marks_busy at the counterexample pool:
one idle instance launched with proxy p1, acquisition requesting p2. -/
theorem C8_reuse_witness :
    (∃ j ∈ (⟨[⟨"a", some "p1", 0, 0, false⟩], false⟩ : BrowserPool).instances,
      j.id = "a" ∧ j.isActive = false ∧
      findAvailableInstance ⟨[⟨"a", some "p1", 0, 0, false⟩], false⟩
        (some "p2") = some j) ∧
    (∀ proxy', findAvailableInstance ⟨[⟨"a", some "p1", 0, 0, false⟩], false⟩
      proxy' = findAvailableInstance ⟨[⟨"a", some "p1", 0, 0, false⟩], false⟩
      (some "p2")) ∧
    (getBrowserContextStep ⟨[⟨"a", some "p1", 0, 0, false⟩], false⟩
      (some "p2") 100 "new" true 3).2 =
      markBusy ⟨[⟨"a", some "p1", 0, 0, false⟩], false⟩ "a" 100 ∧
    (∀ i ∈ (getBrowserContextStep ⟨[⟨"a", some "p1", 0, 0, false⟩], false⟩
        (some "p2") 100 "new" true 3).2.instances,
      i.id = "a" → i.isActive = true ∧ i.lastUsed = 100) :=
  C8_reuse_any_idle_marks_busy ⟨[⟨"a", some "p1", 0, 0, false⟩], false⟩
    (some "p2") 100 "new" true 3 "a" (by decide)

/-- C9: one run of the sweep destroys exactly the idle Sessions whose idle
time strictly exceeds the idle timeout: a surviving entry is one that is
busy or recently used, every busy Session survives regardless of age, and
the swept Sessions are removed from the pool map (and hence from stats). -/
theorem C9_sweep_exactly_stale_idle (pool : BrowserPool)
    (now idleTimeout : Int) (i : BrowserInstance) (hi : i ∈ pool.instances) :
    (i ∈ (cleanupIdleInstances pool now idleTimeout).instances ↔
      (i.isActive = true ∨ now - i.lastUsed ≤ idleTimeout)) ∧
    (i.isActive = true →
      i ∈ (cleanupIdleInstances pool now idleTimeout).instances) ∧
    (cleanupIdleInstances pool now idleTimeout).isShuttingDown =
      pool.isShuttingDown := by
  have hcond : (!(shouldCleanup i now idleTimeout)) = true ↔
      (i.isActive = true ∨ now - i.lastUsed ≤ idleTimeout) := by
    cases hact : i.isActive with
    | true => simp [shouldCleanup, hact]
    | false => simp [shouldCleanup, hact, not_lt]
  refine ⟨?_, ?_, rfl⟩
  · simp only [cleanupIdleInstances, List.mem_filter]
    constructor
    · intro hmem
      exact hcond.mp hmem.2
    · intro hor
      exact ⟨hi, hcond.mpr hor⟩
  · intro hact
    simp only [cleanupIdleInstances, List.mem_filter]
    exact ⟨hi, hcond.mpr (Or.inl hact)⟩

/-- Witness for C9_sweep_exactly_stale_idle: a single idle instance last
used at 0, swept at time 400000 with idle timeout 300000. -/
theorem C9_sweep_witness :
    ((⟨"a", none, 0, 0, false⟩ : BrowserInstance) ∈
        (cleanupIdleInstances ⟨[⟨"a", none, 0, 0, false⟩], false⟩
          400000 300000).instances ↔
      ((false : Bool) = true ∨ (400000 : Int) - 0 ≤ 300000)) ∧
    ((false : Bool) = true →
      (⟨"a", none, 0, 0, false⟩ : BrowserInstance) ∈
        (cleanupIdleInstances ⟨[⟨"a", none, 0, 0, false⟩], false⟩
          400000 300000).instances) ∧
    (cleanupIdleInstances ⟨[⟨"a", none, 0, 0, false⟩], false⟩
      400000 300000).isShuttingDown = false :=
  C9_sweep_exactly_stale_idle ⟨[⟨"a", none, 0, 0, false⟩], false⟩
    400000 300000 ⟨"a", none, 0, 0, false⟩ (by decide)

/-- C10: when withBrowserContext acquires an instance, the task's outcome —
success or failure — is propagated to the caller unchanged, and the acquired
instance is released in the finally block: in the resulting pool the
instance with the acquired id is present, no longer active, and its
last-used timestamp is the release time, so a failed task never leaves its
instance busy. -/
theorem C10_withBrowserContext_always_releases {T : Type} (pool : BrowserPool)
    (proxy : Option String) (nowAcq : Int) (newId : String) (launchOk : Bool)
    (poolSize : Nat) (taskOutcome : Except String T) (nowRel : Int)
    (id : String)
    (h : acquiredId (getBrowserContextStep pool proxy nowAcq newId launchOk
      poolSize).1 = some id) :
    (withBrowserContextStep pool proxy nowAcq newId launchOk poolSize
      taskOutcome nowRel).2.1 = some taskOutcome ∧
    (∃ i ∈ (withBrowserContextStep pool proxy nowAcq newId launchOk poolSize
      taskOutcome nowRel).2.2.instances, i.id = id) ∧
    (∀ i ∈ (withBrowserContextStep pool proxy nowAcq newId launchOk poolSize
      taskOutcome nowRel).2.2.instances,
      i.id = id → i.isActive = false ∧ i.lastUsed = nowRel) := by
  have hrw : withBrowserContextStep pool proxy nowAcq newId launchOk poolSize
      taskOutcome nowRel =
      ((getBrowserContextStep pool proxy nowAcq newId launchOk poolSize).1,
       some taskOutcome,
       releaseBrowserContext
         (getBrowserContextStep pool proxy nowAcq newId launchOk poolSize).2
         id nowRel) := by
    simp only [withBrowserContextStep, h]
  rw [hrw]
  refine ⟨rfl, ?_, ?_⟩
  · exact release_keeps_id _ id nowRel
      (acquire_id_mem pool proxy nowAcq newId launchOk poolSize id h)
  · exact release_sets_inactive _ id nowRel

/-- Witness for C10 on an empty pool of capacity 1 with a failing task: the
fresh instance n1 is created, the task's error propagates, and n1 ends
released (not active, last used at the release time). -/
theorem C10_release_witness :
    (withBrowserContextStep (⟨[], false⟩ : BrowserPool) none 10 "n1" true 1
      (Except.error "boom" : Except String Nat) 20).2.1 =
      some (Except.error "boom") ∧
    (∃ i ∈ (withBrowserContextStep (⟨[], false⟩ : BrowserPool) none 10 "n1"
      true 1 (Except.error "boom" : Except String Nat) 20).2.2.instances,
      i.id = "n1") ∧
    (∀ i ∈ (withBrowserContextStep (⟨[], false⟩ : BrowserPool) none 10 "n1"
      true 1 (Except.error "boom" : Except String Nat) 20).2.2.instances,
      i.id = "n1" → i.isActive = false ∧ i.lastUsed = 20) :=
  C10_withBrowserContext_always_releases (⟨[], false⟩ : BrowserPool) none 10
    "n1" true 1 (Except.error "boom") 20 "n1" (by decide)

end Influscraper
